import Mathlib

/-!
Verification of the feed ingestion and normalization pipeline of the
br-jobboard repository (src/app.js).

The JavaScript source is shallowly embedded: JS strings are Lean `String`s
(manipulated through their `List Char` data so that proofs can proceed by
induction), JS arrays are Lean `List`s, the SQLite tables are Lean lists of
row structures, and every fallible or external operation (the html-to-text
converter, `JSON.parse`, `new URL`, `slugify`, `new Date`, the OpenAI call)
is either modelled by an explicit executable function or passed in as a
function/outcome parameter, so that theorems quantify over all behaviours of
the external dependency.  Machine arithmetic does not occur in the modelled
code paths (all counters are small Nats).
-/

namespace JobBoard

/-! ## Character primitives (JS semantics, ASCII range) -/

/-- Whitespace as recognised by the JS regex class `\s` and `String.trim`
(restricted to the ASCII range used by the source's data). -/
def isJsSpace (c : Char) : Bool :=
  c.toNat = 32 ∨ c.toNat = 9 ∨ c.toNat = 10 ∨ c.toNat = 13 ∨ c.toNat = 11 ∨ c.toNat = 12

/-- Word characters, the JS regex class `\w` = `[A-Za-z0-9_]`. -/
def isWordChar (c : Char) : Bool :=
  (65 ≤ c.toNat ∧ c.toNat ≤ 90) ∨ (97 ≤ c.toNat ∧ c.toNat ≤ 122) ∨
    (48 ≤ c.toNat ∧ c.toNat ≤ 57) ∨ c = '_'

/-- ASCII alphanumerics (used by the model of the external `slugify`). -/
def isAsciiAlnum (c : Char) : Bool :=
  (97 ≤ c.toNat ∧ c.toNat ≤ 122) ∨ (48 ≤ c.toNat ∧ c.toNat ≤ 57)

/-- `String.prototype.toLowerCase` on one character (ASCII range). -/
def lowerChar (c : Char) : Char :=
  if h : 65 ≤ c.toNat ∧ c.toNat ≤ 90 then
    Char.ofNatAux (c.toNat + 32) (Or.inl (by omega))
  else c

/-- `String.prototype.toUpperCase` on one character (ASCII range); used by
the city capitalisation `city[0].toUpperCase() + city.slice(1)`. -/
def upperChar (c : Char) : Char :=
  if h : 97 ≤ c.toNat ∧ c.toNat ≤ 122 then
    Char.ofNatAux (c.toNat - 32) (Or.inl (by omega))
  else c

/-! ## String primitives -/

/-- JS `String.prototype.toLowerCase` (ASCII model). -/
def jsToLower (s : String) : String := ⟨s.data.map lowerChar⟩

/-- Both-ends trim on character lists. -/
def jsTrimList (l : List Char) : List Char :=
  ((l.dropWhile isJsSpace).reverse.dropWhile isJsSpace).reverse

/-- JS `String.prototype.trim`. -/
def jsTrim (s : String) : String := ⟨jsTrimList s.data⟩

/-- JS `String.prototype.slice(0, n)` (also `.slice(0, n)` after a match). -/
def strTake (n : Nat) (s : String) : String := ⟨s.data.take n⟩

/-- JS `a || b` on strings: the empty string is the only falsy string. -/
def jsOr (a b : String) : String := if a = "" then b else a

/-- Case-sensitive "the first list is a prefix of the second". -/
def litStarts : List Char → List Char → Bool
  | [], _ => true
  | _ :: _, [] => false
  | a :: la, b :: lb => a = b && litStarts la lb

/-- Case-insensitive "the first list occurs at the start of the second"
(both sides are compared through `lowerChar`, as a JS `i`-flagged regex
literal does). -/
def ciStarts : List Char → List Char → Bool
  | [], _ => true
  | _ :: _, [] => false
  | a :: la, b :: lb => lowerChar a = lowerChar b && ciStarts la lb

/-- Index of the first case-insensitive occurrence of `lit` in `s`. -/
def ciFindFrom (lit : List Char) : List Char → Option Nat
  | [] => if lit.isEmpty then some 0 else none
  | c :: rest =>
    if ciStarts lit (c :: rest) then some 0
    else (ciFindFrom lit rest).map (· + 1)

/-- Case-sensitive substring search on lists. -/
def hasSubstr (needle : List Char) : List Char → Bool
  | [] => needle.isEmpty
  | c :: rest => litStarts needle (c :: rest) || hasSubstr needle rest

/-- JS `String.prototype.includes` (case-sensitive). -/
def jsIncludes (hay needle : String) : Bool := hasSubstr needle.data hay.data

/-- Splits a character list at maximal runs of characters satisfying `p`
(the semantics of JS `String.prototype.split` with a `/p+/` regex, which
keeps empty edge pieces for leading/trailing separator runs).  Fuel-driven so
the recursion is structural; `splitRuns` supplies sufficient fuel. -/
def splitRunsAux (p : Char → Bool) : Nat → List Char → List (List Char)
  | 0, l => [l]
  | fuel + 1, l =>
    let piece := l.takeWhile (fun c => ¬ p c)
    let rest := l.drop piece.length
    match rest with
    | [] => [piece]
    | _ :: _ => piece :: splitRunsAux p fuel (rest.dropWhile p)

/-- JS `s.split(/p+/)` . -/
def splitRuns (p : Char → Bool) (s : String) : List String :=
  (splitRunsAux p (s.data.length + 1) s.data).map (fun l => ⟨l⟩)

/-! ## `truncateWords` (src/app.js, lines 199-203) -/

/-- `truncateWords(txt, n)`: split on `/\s+/`; if at most `n` words, the text
comes back unchanged, otherwise the first `n` words joined by a space with an
ellipsis appended. -/
def truncateWords (txt : String) (n : Nat) : String :=
  let words := splitRuns isJsSpace txt
  if words.length ≤ n then txt
  else String.intercalate " " (words.take n) ++ "…"

/-! ## `uniqNormTags` (src/app.js, lines 205-217) -/

/-- The per-tag normalisation applied inside `uniqNormTags`:
`String(t).trim().toLowerCase()`. -/
def normTag (t : String) : String := jsToLower (jsTrim t)

/-- The loop of `uniqNormTags`: skip falsy/whitespace-only entries, normalise,
skip already-seen values, keep first-seen order. -/
def uniqNormAux : List String → List String → List String
  | [], _ => []
  | t :: rest, seen =>
    let n := normTag t
    if n = "" ∨ n ∈ seen then uniqNormAux rest seen
    else n :: uniqNormAux rest (n :: seen)

/-- `uniqNormTags(tags)`: normalised, deduplicated (first-seen order), capped
at 8 entries (`out.slice(0, 8)`). -/
def uniqNormTags (tags : List String) : List String :=
  (uniqNormAux tags []).take 8

/-- The specified shape of every produced tag list: at most 8 entries, no
empty entry, every entry trimmed and lowercase, and no two entries equal up
to case. -/
def tagListOk (l : List String) : Prop :=
  l.length ≤ 8 ∧ (∀ t ∈ l, t ≠ "" ∧ jsTrim t = t ∧ jsToLower t = t) ∧
    l.Pairwise (fun a b => jsToLower a ≠ jsToLower b)

/-! ## `matchesProfession` (src/app.js, lines 260-263) -/

/-- `matchesProfession(title, company, description)`: lowercase the
space-joined template literal and test whether any configured keyword occurs
as a substring.  The keyword list (`PROFESSION_KEYWORDS`) is configuration,
so it is a parameter. -/
def matchesProfession (keywords : List String) (title company description : String) : Bool :=
  let text := jsToLower (title ++ " " ++ company ++ " " ++ description)
  keywords.any (fun keyword => jsIncludes text keyword)

/-! ## `PROFESSION_TAGS` and `extractTags` (src/app.js, lines 267-318) -/

/-- The fixed `PROFESSION_TAGS` vocabulary table, keyed by profession. -/
def professionTagsTable : List (String × List String) :=
  [ ("warehouse",
     [ "armazém", "trabalhador de armazém", "associado de armazém", "operador de armazém",
       "trabalhador geral", "repositor", "separador", "embalador", "separador de pedidos",
       "carregador", "descarregador", "trabalhador de doca", "operador de empilhadeira",
       "operador de empilhadeira elétrica", "manuseador de materiais", "assistente de expedição",
       "assistente de recebimento", "especialista em controle de inventário",
       "supervisor de armazém", "gerente de armazém", "associado de logística",
       "associado de distribuição", "associado da cadeia de suprimentos",
       "estoquista", "almoxarife", "auxiliar de armazém", "operador de paleteira",
       "operador de empilhadeira retrátil", "contador cíclico", "inspector de recebimento" ]),
    ("truck driver",
     [ "categoria e", "categoria a", "cnh", "longa distância", "regional", "local",
       "caminhão-tanque", "carroceria plana", "otr", "cargas perigosas (hazmat)" ]),
    ("software engineer",
     [ "javascript", "python", "java", "react", "node", "backend", "frontend", "full stack", "devops" ]),
    ("nurse",
     [ "enfermeiro(a)", "técnico(a) de enfermagem", "uti", "emergência", "pediatria",
       "cirúrgico", "cuidados intensivos", "oncologia" ]),
    ("electrician",
     [ "comercial", "residencial", "industrial", "aprendiz", "eletricista qualificado", "mestre eletricista" ]),
    ("mechanic",
     [ "automotivo", "diesel", "equipamentos pesados", "marítimo", "aeronaves", "certificação ase" ]),
    ("welder",
     [ "mig", "tig", "eletrodo revestido", "flux core", "soldagem de tubos", "estrutural", "aço inoxidável" ]),
    ("warehouse+",
     [ "empilhadeira", "empilhadeira retrátil", "separador", "embalador", "expedição", "recebimento", "inventário" ]) ]

/-- `PROFESSION_TAGS[profKey] || PROFESSION_TAGS[' Warehouse'] || []`.
The fallback key `' Warehouse'` has no entry in the table (the keys are all
lowercase without a leading space), so a profession without a vocabulary
entry silently yields the empty vocabulary. -/
def lookupProfTags (profKey : String) : List String :=
  match professionTagsTable.find? (fun p => p.1 = profKey) with
  | some p => p.2
  | none =>
    match professionTagsTable.find? (fun p => p.1 = " Warehouse") with
    | some p => p.2
    | none => []

/-- Literal alternatives of the conditional-tag regexes in `extractTags`.
Each regex is an `i`-flagged alternation of literals tested against the
already-lowercased `text`, i.e. a disjunction of substring tests. -/
def remoteWords : List String := ["remote", "homeoffice", "home office", "work from home", "telecommute"]

def fullTimeWords : List String := ["vollzeit", "full time", "full-time"]

def partTimeWords : List String := ["teilzeit", "part time", "part-time"]

def permanentWords : List String := ["festanstellung", "unbefristet", "permanent"]

def contractWords : List String := ["befristet", "temporary", "zeitarbeit", "contract"]

/-- `ws.some(w => text.includes(w))`. -/
def anyWordIn (text : String) (ws : List String) : Bool :=
  ws.any (fun w => jsIncludes text w)

/-- The `found` list built by `extractTags` up to (and excluding) the final
`found.push(TARGET_PROFESSION.toLowerCase())`.  `convert` stands for the
external html-to-text library call `convert(html, { wordwrap: 120 })`;
`targetProfession` is the `TARGET_PROFESSION` configuration value. -/
def extractFound (convert : String → String) (targetProfession : String)
    (title company html : String) : List String :=
  let text := jsToLower (title ++ " " ++ company ++ " " ++ strTake 1000 (convert html))
  let profKey := jsToLower targetProfession
  let profTags := lookupProfTags profKey
  let found := profTags.filter (fun tag => jsIncludes text tag)
  let found := found ++ (if anyWordIn text remoteWords then ["remote"] else [])
  let found := found ++ (if anyWordIn text fullTimeWords then ["full-time"] else [])
  let found := found ++ (if anyWordIn text partTimeWords then ["part-time"] else [])
  let found := found ++ (if anyWordIn text permanentWords then ["permanent"] else [])
  found ++ (if anyWordIn text contractWords then ["contract"] else [])

/-- `extractTags({title, company, html})` (src/app.js, lines 303-318). -/
def extractTags (convert : String → String) (targetProfession : String)
    (title company html : String) : List String :=
  uniqNormTags (extractFound convert targetProfession title company html ++
    [jsToLower targetProfession])

/-! ## `escapeHtml` (src/app.js, lines 246-250) -/

/-- The character replacement map of `escapeHtml`. -/
def escChar (c : Char) : List Char :=
  if c = '&' then "&amp;".data
  else if c = '<' then "&lt;".data
  else if c = '>' then "&gt;".data
  else if c = '"' then "&quot;".data
  else if c = '\'' then "&#39;".data
  else [c]

/-- `escapeHtml(s)`: replace the five HTML-special characters. -/
def escapeHtml (s : String) : String := ⟨(s.data.map escChar).flatten⟩

/-! ## `sanitizeHtml` (src/app.js, lines 221-230)

Each `.replace(regex, '')` with a `g`-flag is modelled as a left-to-right
scanner: at every position it either recognises a match of that regex
(`matchAt` returns the matched length) and deletes it, continuing after the
deleted span, or keeps one character and moves on — exactly the semantics of
a global replace with the empty string.  Each scanner below documents the
regex it implements. -/

/-- Generic single-pass global deletion.  `fuel` is an upper bound on the
number of steps; every step consumes at least one character, so fueling with
the input length makes the exhaustion branch unreachable. -/
def removeAllAux (matchAt : List Char → Option Nat) : Nat → List Char → List Char
  | 0, l => l
  | _ + 1, [] => []
  | fuel + 1, c :: rest =>
    match matchAt (c :: rest) with
    | some n => removeAllAux matchAt fuel ((c :: rest).drop (max n 1))
    | none => c :: removeAllAux matchAt fuel rest

def removeAllMatches (matchAt : List Char → Option Nat) (s : String) : String :=
  ⟨removeAllAux matchAt s.data.length s.data⟩

/-- Is the character at index `n` present and a `\w` character?  (Used for
the `\b` boundary after a literal whose last character is a word char.) -/
def wordCharAt (s : List Char) (n : Nat) : Bool :=
  match s.drop n with
  | [] => false
  | c :: _ => isWordChar c

/-- `/<script\b[^<]*(?:(?!<\/script>)<[^<]*)*<\/script>/gi`: from `<script`
(with a word boundary) up to and including the first following `</script>`;
no match if the element is never closed. -/
def matchScriptAt (s : List Char) : Option Nat :=
  if ciStarts "<script".data s && !(wordCharAt s 7) then
    match ciFindFrom "</script>".data (s.drop 7) with
    | some i => some (7 + i + 9)
    | none => none
  else none

/-- Tag names of the second `sanitizeHtml` regex. -/
def bannedTagNames : List String := ["iframe", "object", "embed", "link", "style", "noscript"]

/-- `/<\/?(?:iframe|object|embed|link|style|noscript)\b[^>]*>/gi`. -/
def matchBannedAt (s : List Char) : Option Nat :=
  match s with
  | '<' :: rest =>
    let sl := match rest with
      | '/' :: r => (1, r)
      | _ => (0, rest)
    match bannedTagNames.find? (fun nm =>
        ciStarts nm.data sl.2 && !(wordCharAt sl.2 nm.data.length)) with
    | some nm =>
      match (sl.2.drop nm.data.length).findIdx? (fun c => c = '>') with
      | some j => some (1 + sl.1 + nm.data.length + j + 1)
      | none => none
    | none => none
  | _ => none

def isQuote (c : Char) : Bool := c = '"' ∨ c = '\''

/-- `/\son\w+\s*=\s*["'][^"']*["']/gi`. -/
def matchOnQuotedAt (s : List Char) : Option Nat :=
  match s with
  | c :: rest =>
    if isJsSpace c && ciStarts "on".data rest then
      let afterOn := rest.drop 2
      let w := afterOn.takeWhile isWordChar
      if w.isEmpty then none
      else
        let r1 := afterOn.drop w.length
        let sp1 := r1.takeWhile isJsSpace
        match r1.drop sp1.length with
        | '=' :: r3 =>
          let sp2 := r3.takeWhile isJsSpace
          match r3.drop sp2.length with
          | q :: r5 =>
            if isQuote q then
              let body := r5.takeWhile (fun d => !(isQuote d))
              match r5.drop body.length with
              | q2 :: _ =>
                if isQuote q2 then
                  some (1 + 2 + w.length + sp1.length + 1 + sp2.length + 1 + body.length + 1)
                else none
              | [] => none
            else none
          | [] => none
        | _ => none
    else none
  | [] => none

/-- `/\son\w+\s*=\s*[^\s>]+/gi`. -/
def matchOnBareAt (s : List Char) : Option Nat :=
  match s with
  | c :: rest =>
    if isJsSpace c && ciStarts "on".data rest then
      let afterOn := rest.drop 2
      let w := afterOn.takeWhile isWordChar
      if w.isEmpty then none
      else
        let r1 := afterOn.drop w.length
        let sp1 := r1.takeWhile isJsSpace
        match r1.drop sp1.length with
        | '=' :: r3 =>
          let sp2 := r3.takeWhile isJsSpace
          let v := (r3.drop sp2.length).takeWhile (fun d => !(isJsSpace d) && d ≠ '>')
          if v.isEmpty then none
          else some (1 + 2 + w.length + sp1.length + 1 + sp2.length + v.length)
        | _ => none
    else none
  | [] => none

/-- `href` or `src`, case-insensitively: matched length and remaining list. -/
def matchAttrName (rest : List Char) : Option (Nat × List Char) :=
  if ciStarts "href".data rest then some (4, rest.drop 4)
  else if ciStarts "src".data rest then some (3, rest.drop 3)
  else none

/-- `/\s(href|src)\s*=\s*["']\s*javascript:[^"']*["']/gi`. -/
def matchHrefQuotedAt (s : List Char) : Option Nat :=
  match s with
  | c :: rest =>
    if isJsSpace c then
      match matchAttrName rest with
      | some nr =>
        let sp1 := nr.2.takeWhile isJsSpace
        match nr.2.drop sp1.length with
        | '=' :: r3 =>
          let sp2 := r3.takeWhile isJsSpace
          match r3.drop sp2.length with
          | q :: r5 =>
            if isQuote q then
              let sp3 := r5.takeWhile isJsSpace
              let r6 := r5.drop sp3.length
              if ciStarts "javascript:".data r6 then
                let body := (r6.drop 11).takeWhile (fun d => !(isQuote d))
                match (r6.drop 11).drop body.length with
                | q2 :: _ =>
                  if isQuote q2 then
                    some (1 + nr.1 + sp1.length + 1 + sp2.length + 1 + sp3.length + 11 + body.length + 1)
                  else none
                | [] => none
              else none
            else none
          | [] => none
        | _ => none
      | none => none
    else none
  | [] => none

/-- `/\s(href|src)\s*=\s*javascript:[^\s>]+/gi`. -/
def matchHrefBareAt (s : List Char) : Option Nat :=
  match s with
  | c :: rest =>
    if isJsSpace c then
      match matchAttrName rest with
      | some nr =>
        let sp1 := nr.2.takeWhile isJsSpace
        match nr.2.drop sp1.length with
        | '=' :: r3 =>
          let sp2 := r3.takeWhile isJsSpace
          let r4 := r3.drop sp2.length
          if ciStarts "javascript:".data r4 then
            let v := (r4.drop 11).takeWhile (fun d => !(isJsSpace d) && d ≠ '>')
            if v.isEmpty then none
            else some (1 + nr.1 + sp1.length + 1 + sp2.length + 11 + v.length)
          else none
        | _ => none
      | none => none
    else none
  | [] => none

/-- `sanitizeHtml(html)`: the six global replaces, in source order, each a
single pass over the output of the previous one. -/
def sanitizeHtml (html : String) : String :=
  if html = "" then ""
  else
    removeAllMatches matchHrefBareAt
      (removeAllMatches matchHrefQuotedAt
        (removeAllMatches matchOnBareAt
          (removeAllMatches matchOnQuotedAt
            (removeAllMatches matchBannedAt
              (removeAllMatches matchScriptAt html)))))

/-! ## `stripDocumentTags` (src/app.js, lines 233-243) -/

/-- `<` + optional `/` (when `allowSlash`) + the tag name case-insensitively
+ `[^>]*` + `>`; implements `/<\/?name[^>]*>/gi` and `/<name[^>]*>/gi`. -/
def matchNamedTagAt (allowSlash : Bool) (nm : String) (s : List Char) : Option Nat :=
  match s with
  | '<' :: rest =>
    let sl := if allowSlash then
        (match rest with
         | '/' :: r => (1, r)
         | _ => (0, rest))
      else (0, rest)
    if ciStarts nm.data sl.2 then
      match (sl.2.drop nm.data.length).findIdx? (fun c => c = '>') with
      | some j => some (1 + sl.1 + nm.data.length + j + 1)
      | none => none
    else none
  | _ => none

/-- `/<title[^>]*>.*?<\/title>/gi` — `.` does not cross line terminators, so
the element matches only when the first following `</title>` is on the same
line. -/
def matchTitleElemAt (s : List Char) : Option Nat :=
  match s with
  | '<' :: rest =>
    if ciStarts "title".data rest then
      match (rest.drop 5).findIdx? (fun c => c = '>') with
      | some j =>
        let content := (rest.drop 5).drop (j + 1)
        match ciFindFrom "</title>".data content with
        | some k =>
          if (content.take k).any (fun c =>
              c = '\n' ∨ c = '\r' ∨ c.toNat = 8232 ∨ c.toNat = 8233) then none
          else some (1 + 5 + j + 1 + k + 8)
        | none => none
      | none => none
    else none
  | _ => none

/-- `stripDocumentTags(html)`: remove DOCTYPE, `html`, `head`, `body`,
`meta` and `title` document-level markup, then trim. -/
def stripDocumentTags (html : String) : String :=
  if html = "" then ""
  else
    jsTrim (removeAllMatches matchTitleElemAt
      (removeAllMatches (matchNamedTagAt false "meta")
        (removeAllMatches (matchNamedTagAt true "body")
          (removeAllMatches (matchNamedTagAt true "head")
            (removeAllMatches (matchNamedTagAt true "html")
              (removeAllMatches (matchNamedTagAt false "!doctype") html))))))

/-! ## `getCountryFromHost` and `inferJobLocations` (src/app.js, lines 408-476) -/

/-- The fixed TLD → ISO country table of `getCountryFromHost`. -/
def tldCountryMap : List (String × String) :=
  [ ("de", "DE"), ("at", "AT"), ("br", "BR"), ("ch", "CH"), ("li", "LI"),
    ("uk", "GB"), ("gb", "GB"), ("ie", "IE"),
    ("us", "US"), ("ca", "CA"), ("au", "AU"), ("nz", "NZ"),
    ("nl", "NL"), ("be", "BE"), ("fr", "FR"), ("es", "ES"), ("pt", "PT"), ("it", "IT"),
    ("pl", "PL"), ("cz", "CZ"), ("sk", "SK"), ("hu", "HU"), ("ro", "RO"), ("bg", "BG"),
    ("ua", "UA"), ("rs", "RS"), ("hr", "HR"), ("si", "SI"),
    ("dk", "DK"), ("se", "SE"), ("no", "NO"), ("fi", "FI"), ("is", "IS"),
    ("ee", "EE"), ("lv", "LV"), ("lt", "LT") ]

/-- `getCountryFromHost(siteUrl)`.  The external `new URL(siteUrl).hostname`
call is modelled by its outcome: `none` when URL parsing throws (the `catch`
branch returns `'US'`), `some host` otherwise.  The host's last dot-separated
component is looked up in the TLD table, defaulting to `'US'`. -/
def getCountryFromHost (hostOutcome : Option String) : String :=
  match hostOutcome with
  | none => "US"
  | some host =>
    let tld := ((jsToLower host).splitOn ".").getLastD ""
    match tldCountryMap.find? (fun p => p.1 = tld) with
    | some p => p.2
    | none => "US"

/-- The fixed `citiesBR` lexicon. -/
def citiesBR : List String :=
  [ "são paulo", "sao paulo", "sp",
    "rio de janeiro", "rj",
    "brasilia", "df",
    "salvador", "ssa",
    "fortaleza", "ce",
    "belo horizonte", "bh", "mg",
    "manaus", "am",
    "curitiba", "pr",
    "recife", "pe",
    "porto alegre", "rs",
    "goiânia", "goiania", "go",
    "belém", "belem", "pa",
    "são luís", "sao luis", "ma",
    "maceió", "maceio", "al",
    "natal", "rn",
    "terezina", "teresina", "pi",
    "joão pessoa", "joao pessoa", "pb",
    "campo grande", "ms",
    "cuiabá", "cuiaba", "mt",
    "florianópolis", "florianopolis", "sc",
    "aracaju", "se",
    "palmas", "to" ]

/-- `city[0].toUpperCase() + city.slice(1)`. -/
def capFirst (s : String) : String :=
  match s.data with
  | [] => ""
  | c :: rest => ⟨upperChar c :: rest⟩

/-- Schema.org `PostalAddress` as emitted by `inferJobLocations`. -/
structure PostalAddress where
  addressLocality : Option String
  addressCountry : String
deriving DecidableEq

/-- Schema.org `Place`. -/
structure Place where
  address : PostalAddress
deriving DecidableEq

/-- `inferJobLocations(html, title, siteUrl)`: country from the site host,
optional city sniff over the lowercased text (first lexicon hit wins),
always a one-element `Place` array.  `convert` stands for the external
`convert(html, { wordwrap: 1000 })` call; `hostOutcome` as in
`getCountryFromHost`. -/
def inferJobLocations (convert : String → String) (html title : String)
    (hostOutcome : Option String) : List Place :=
  let country := getCountryFromHost hostOutcome
  let text := jsToLower (convert html ++ " " ++ title)
  let city := citiesBR.find? (fun c => jsIncludes text c)
  let address := match city with
    | some c => { addressLocality := some (capFirst c), addressCountry := country : PostalAddress }
    | none => { addressLocality := none, addressCountry := country : PostalAddress }
  [{ address := address }]

/-! ## `mkSlug` (src/app.js, line 196)

`mkSlug(s) = slugify(String(s || 'job'), { lower: true, strict: true }).slice(0, 120)`.
`slugify` is an external library; it is modelled for ASCII input: lowercase,
strip characters that are neither alphanumeric nor whitespace, collapse
whitespace runs into single hyphens, trim.  The theorems that rely on
`mkSlug` need only that it is a deterministic function of its input string. -/

def slugifyStrict (s : String) : String :=
  let kept := (jsToLower s).data.filter (fun c => isAsciiAlnum c || isJsSpace c)
  String.intercalate "-"
    (((splitRuns isJsSpace ⟨kept⟩).filter (fun piece => piece ≠ "")))

def mkSlug (s : String) : String :=
  strTake 120 (slugifyStrict (jsOr s "job"))

/-! ## `rewriteJobRich` (src/app.js, lines 489-625) -/

/-- The result record `{ short, html, tags, usedAI }`. -/
structure RewriteResult where
  short : String
  html : String
  tags : List String
  usedAI : Bool
deriving DecidableEq

/-- Configuration and external dependencies of `rewriteJobRich`:
`convertSel` is `convert(html, { wordwrap: 120, selectors: [...] })`,
`convertWrap` is `convert(x, { wordwrap: 120 })`, `jsonParse` is the guarded
`JSON.parse` of the TAGS payload (`none` models a parse exception, array
items are modelled post string-coercion), `hasOpenAI` covers both
`HAS_OPENAI` and the nullability of the `openai` client (they are assigned
together), and `targetProfession` is `TARGET_PROFESSION`. -/
structure RewriteCfg where
  convertSel : String → String
  convertWrap : String → String
  jsonParse : String → Option (List String)
  hasOpenAI : Bool
  targetProfession : String

/-- The fixed seven-section fallback skeleton with the escaped paragraphs
spliced into the first section (the `fallbackHTML` template literal,
already `.trim()`ed). -/
def fallbackSkeleton (paragraphBlock : String) : String :=
  "<section><h2>Sobre a Vaga</h2>" ++ paragraphBlock ++ "</section>\n\n" ++
  "<section><h2>Responsabilidades</h2>\n  <ul>\n    <li>Executar as atividades principais conforme descrito.</li>\n  </ul>\n</section>\n\n" ++
  "<section><h2>Requisitos</h2>\n  <ul>\n    <li>Experiência relevante ou disposição para aprender.</li>\n  </ul>\n</section>\n\n" ++
  "<section><h2>Benefícios</h2>\n  <ul>\n    <li>Benefícios conforme descrição da vaga.</li>\n  </ul>\n</section>\n\n" ++
  "<section><h2>Remuneração</h2>\n  <p>A ser discutida.</p>\n</section>\n\n" ++
  "<section><h2>Local e Horário</h2>\n  <p>Conforme descrição da vaga.</p>\n</section>\n\n" ++
  "<section><h2>Como se Candidatar</h2>\n  <p>Use o botão “Candidatar-se”.</p>\n</section>"

/-- The `fallback()` closure of `rewriteJobRich`: ≤ 6 escaped plain-text
paragraphs (split on `/\n+/`, falsy pieces dropped) wrapped in the fixed
skeleton, word-truncated short text, tags from `extractTags`,
`usedAI: false`. -/
def fallbackResult (cfg : RewriteCfg) (title company html : String) : RewriteResult :=
  let plain := strTake 9000 (cfg.convertSel html)
  let paras := ((splitRuns (fun c => c = '\n') plain).filter (fun p => p ≠ "")).take 6
  let paragraphs := String.intercalate "\n" (paras.map (fun p => "<p>" ++ escapeHtml p ++ "</p>"))
  let paragraphBlock := jsOr paragraphs "<p>Detalhes fornecidos pelo empregador.</p>"
  { short := truncateWords plain 45,
    html := sanitizeHtml (fallbackSkeleton paragraphBlock),
    tags := extractTags cfg.convertWrap cfg.targetProfession title company html,
    usedAI := false }

/-- Text strictly between the first case-insensitive occurrence of `m1` and
the first following occurrence of `m2` (the semantics of the
`/m1\s*([\s\S]*?)\s*m2/i` section matches, whose captures the caller trims
anyway). `none` when either marker is missing. -/
def sectionBetween (out m1 m2 : String) : Option String :=
  match ciFindFrom m1.data out.data with
  | none => none
  | some i =>
    let rest := out.data.drop (i + m1.data.length)
    match ciFindFrom m2.data rest with
    | none => none
    | some j => some ⟨rest.take j⟩

/-- Everything after the first case-insensitive occurrence of `m`
(the `/m\s*([\s\S]*)$/i` match). -/
def sectionAfter (out m : String) : Option String :=
  (ciFindFrom m.data out.data).map (fun i => ⟨out.data.drop (i + m.data.length)⟩)

/-- `/\[[\s\S]*\]/` on the TAGS payload: from the first `[` to the last `]`,
provided the bracket pair is ordered. -/
def bracketSlice (s : String) : Option String :=
  match s.data.findIdx? (fun c => c = '[') with
  | none => none
  | some i =>
    match s.data.reverse.findIdx? (fun c => c = ']') with
    | none => none
    | some jr =>
      let j := s.data.length - 1 - jr
      if i < j then some ⟨(s.data.drop i).take (j - i + 1)⟩ else none

/-- The single-section substitute used when the AI HTML section is missing
or implausibly short. -/
def aiMinimalSection (short : String) : String :=
  "<section><h2>Sobre a Vaga</h2><p>" ++ escapeHtml short ++ "</p></section>"

/-- The AI-path HTML post-processing of `rewriteJobRich`: trim the captured
section, substitute when empty, strip document-level tags, substitute when
shorter than 50 characters, sanitize. -/
def aiHtmlOut (short htmlSection : String) : String :=
  let h0 := jsTrim htmlSection
  let h1 := jsOr h0 (aiMinimalSection short)
  let h2 := stripDocumentTags h1
  let h3 := if h2.length < 50 then aiMinimalSection short else h2
  sanitizeHtml h3

/-- `rewriteJobRich({title, company, html}, useAI)`.  The awaited OpenAI
call is modelled by its outcome `aiOutcome`: `Except.error` models any
rejection of the call (caught by the surrounding `try`, which falls back),
`Except.ok out` models a successful response whose message content is `out`
(`resp.choices?.[0]?.message?.content || ''`). -/
def rewriteJobRich (cfg : RewriteCfg) (title company html : String)
    (useAI : Bool) (aiOutcome : Except Unit String) : RewriteResult :=
  if !cfg.hasOpenAI || !useAI then fallbackResult cfg title company html
  else
    match aiOutcome with
    | Except.error _ => fallbackResult cfg title company html
    | Except.ok out =>
      let short0 := jsTrim ((sectionBetween out "===DESCRIPTION===" "===HTML===").getD "")
      let short1 := jsOr short0 (strTake 300 (cfg.convertWrap out))
      let short := strTake 600 (jsTrim (cfg.convertWrap short1))
      let htmlOut := aiHtmlOut short ((sectionBetween out "===HTML===" "===TAGS===").getD "")
      let tagsRaw := (sectionAfter out "===TAGS===").getD ""
      let tagsParsed := (bracketSlice tagsRaw).bind cfg.jsonParse
      let tags := uniqNormTags (tagsParsed.getD
        (extractTags cfg.convertWrap cfg.targetProfession title company html))
      { short := short, html := htmlOut, tags := tags, usedAI := true }

/-! ## `processFeed` (src/app.js, lines 644-826)

The streaming run has two phases.  During parsing, every closed `job`/`item`
element increments `processed`, computes its guid
(`currentItem.guid || currentItem.link || 'job-' + processed`), and is
dropped when the guid already exists in storage or the profession does not
match; survivors are pushed onto `batch`.  All inserts happen afterwards in
the parser's `end` handler, so every existence pre-check reads the storage
state from before the run's inserts.  The jobs table is modelled as a list
of rows; `INSERT OR IGNORE` is a no-op exactly when the row's `guid` or
`slug` collides with a stored row (both columns are UNIQUE).  The tag tables
(`tags`, `job_tags`) have their own model below for the retention claim. -/

/-- A raw item assembled by the SAX handlers. -/
structure FeedItem where
  title : String
  description : String
  company : String
  link : String
  guid : String
  pubDate : String
deriving DecidableEq

/-- A matched item as pushed onto `batch`. -/
structure RawJob where
  rawTitle : String
  rawCompany : String
  rawDescription : String
  guid : String
  source : String
  url : String
  published_at : Int
deriving DecidableEq

/-- A stored row of the `jobs` table (the columns written by the pipeline;
`id`/`created_at` are database-generated and carry no pipeline content). -/
structure JobRow where
  guid : String
  source : String
  title : String
  company : String
  description_html : String
  description_short : String
  url : String
  published_at : Int
  slug : String
  tags_csv : String
deriving DecidableEq

/-- `currentItem.guid || currentItem.link || 'job-' + processed`. -/
def computeGuid (item : FeedItem) (ordinal : Nat) : String :=
  jsOr item.guid (jsOr item.link ("job-" ++ toString ordinal))

/-- The enrichment output consumed when building a stored row; produced by
`rewriteJobRich` per item.  The insert-relevant columns (`guid`, `slug`) do
not depend on it, so run theorems quantify over arbitrary enrichment. -/
structure EnrichOut where
  short : String
  html : String
  tags : List String
deriving DecidableEq

/-- `mkSlug(rawTitle + '-' + rawCompany) || mkSlug(rawTitle) || mkSlug(guid)`. -/
def slugForJob (rj : RawJob) : String :=
  jsOr (mkSlug (rj.rawTitle ++ "-" ++ rj.rawCompany))
    (jsOr (mkSlug rj.rawTitle) (mkSlug rj.guid))

/-- The row pushed onto `processedBatch` for a matched item. -/
def mkRow (rj : RawJob) (e : EnrichOut) : JobRow :=
  { guid := rj.guid,
    source := rj.source,
    title := jsOr rj.rawTitle "Untitled",
    company := jsOr rj.rawCompany "",
    description_html := e.html,
    description_short := truncateWords e.short 60,
    url := jsOr rj.url "",
    published_at := rj.published_at,
    slug := slugForJob rj,
    tags_csv := String.intercalate ", " e.tags }

/-- The parse-phase filter: ordinal counting, guid computation, existence
pre-check against the pre-run guid set, profession match.  `dateParse`
models `unixtime` (the external `new Date` parse); `source` is the constant
`new URL(FEED_URL).hostname`. -/
def collectAux (dateParse : String → Int) (source : String) (keywords : List String)
    (dbGuids : List String) : Nat → List FeedItem → List RawJob
  | _, [] => []
  | n, item :: rest =>
    let g := computeGuid item n
    (if g ∈ dbGuids then []
     else if matchesProfession keywords item.title item.company item.description then
       [{ rawTitle := item.title, rawCompany := item.company,
          rawDescription := item.description, guid := g, source := source,
          url := item.link, published_at := dateParse item.pubDate }]
     else []) ++ collectAux dateParse source keywords dbGuids (n + 1) rest

/-- `stmtInsertJob` (`INSERT OR IGNORE`): ignore on a guid or slug
collision, append otherwise. -/
def insertOrIgnore (db : List JobRow) (row : JobRow) : List JobRow :=
  if db.any (fun r => r.guid = row.guid) || db.any (fun r => r.slug = row.slug) then db
  else db ++ [row]

/-- The `end`-phase enrichment + insert loop over the collected batch.
`enrichAt i` is the `rewriteJobRich` output for the i-th batch entry
(arbitrary, since AI output is nondeterministic).  Batches of 100 rows are
committed in order inside transactions; on the success path this equals
sequential insertion. -/
def insertJobsAux (enrichAt : Nat → EnrichOut) : Nat → List JobRow → List RawJob → List JobRow
  | _, db, [] => db
  | i, db, rj :: rest =>
    insertJobsAux enrichAt (i + 1) (insertOrIgnore db (mkRow rj (enrichAt i))) rest

/-- One full `processFeed` run over `feed` starting from the stored table
`db`: collect (with pre-checks against `db`), then enrich and insert. -/
def runFeed (dateParse : String → Int) (source : String) (keywords : List String)
    (enrichAt : Nat → EnrichOut) (db : List JobRow) (feed : List FeedItem) : List JobRow :=
  insertJobsAux enrichAt 0 db
    (collectAux dateParse source keywords (db.map (fun r => r.guid)) 1 feed)

/-! ## The retention step of a run (src/app.js, lines 814-819)

`processFeed` ends with `if (total > MAX_JOBS) stmtDeleteOld.run(MAX_JOBS)`.
`stmtDeleteOld` keeps the top `MAX_JOBS` rows under
`ORDER BY published_at DESC, id DESC`.  The `id` column is AUTOINCREMENT:
ids are strictly increasing, rows are only ever appended, and deletion
preserves the relative order of survivors — so in the list model the
position of a row (its `enum` index) orders rows exactly as `id` does, both
within one run and across runs. -/

/-- Number of rows ranked strictly above the row `j` sitting at index `i`
under `ORDER BY published_at DESC, id DESC` (index order = id order). -/
def trimRankHigher (jobs : List JobRow) (i : Nat) (j : JobRow) : Nat :=
  (jobs.enum.filter (fun p =>
    p.2.published_at > j.published_at ∨
      (p.2.published_at = j.published_at ∧ p.1 > i))).length

/-- `stmtDeleteOld.run(maxJobs)` on the jobs list: keep exactly the rows
with fewer than `maxJobs` rows ranked above them. -/
def trimJobsRun (maxJobs : Nat) (jobs : List JobRow) : List JobRow :=
  (jobs.enum.filter (fun p => trimRankHigher jobs p.1 p.2 < maxJobs)).map
    (fun p => p.2)

/-- The retention step at the end of every `processFeed` run: trim only when
the stored count exceeds `MAX_JOBS`. -/
def trimStep (maxJobs : Nat) (jobs : List JobRow) : List JobRow :=
  if jobs.length > maxJobs then trimJobsRun maxJobs jobs else jobs

/-- One full `processFeed` run including the retention step: collect with
pre-checks against `db`, enrich and insert, then trim. -/
def runPipeline (dateParse : String → Int) (source : String)
    (keywords : List String) (enrichAt : Nat → EnrichOut) (maxJobs : Nat)
    (db : List JobRow) (feed : List FeedItem) : List JobRow :=
  trimStep maxJobs (runFeed dateParse source keywords enrichAt db feed)

/-! ## The AI budget loop (src/app.js, lines 761-775) -/

/-- One matched item as consumed by the enrichment loop, together with the
outcome of its (potential) AI call. -/
structure FeedWork where
  title : String
  company : String
  html : String
  aiOutcome : Except Unit String

/-- The enrichment loop state machine:
`shouldUseAI = (AI_PROCESS_LIMIT === 0) || (aiEnhanced < AI_PROCESS_LIMIT)`,
`aiEnhanced` incremented exactly when `usedAI` comes back true.  Returns the
final counter and, per item, the pair `(shouldUseAI, usedAI)`. -/
def aiLoop (cfg : RewriteCfg) (limit : Nat) : List FeedWork → Nat → Nat × List (Bool × Bool)
  | [], n => (n, [])
  | w :: rest, n =>
    let should := (limit == 0) || decide (n < limit)
    let r := rewriteJobRich cfg w.title w.company w.html should w.aiOutcome
    let n2 := if r.usedAI then n + 1 else n
    let tail := aiLoop cfg limit rest n2
    (tail.1, (should, r.usedAI) :: tail.2)

/-! ## Retention trimming (src/app.js, lines 182-189 and 814-819) -/

/-- The ordering key of `stmtDeleteOld` (`ORDER BY published_at DESC, id DESC`). -/
structure TrimJob where
  id : Nat
  published_at : Int
deriving DecidableEq

/-- The tables touched (or, for `job_tags`, NOT touched) by retention:
`jobs` rows keyed by `(published_at, id)` and the `job_tags` relation rows
`(job_id, tag_id)`. -/
structure TrimState where
  jobs : List TrimJob
  jobTags : List (Nat × Nat)
deriving DecidableEq

/-- `a` sorts strictly before `b` under `ORDER BY published_at DESC, id DESC`. -/
def keyGt (a b : TrimJob) : Bool :=
  a.published_at > b.published_at ∨ (a.published_at = b.published_at ∧ a.id > b.id)

/-- `stmtDeleteOld.run(maxJobs)`: keep exactly the rows with fewer than
`maxJobs` rows ahead of them in the retention order (equivalently: delete
the rows selected by `LIMIT -1 OFFSET maxJobs`); ids are unique so the rank
is well defined. -/
def trimJobsTable (maxJobs : Nat) (jobs : List TrimJob) : List TrimJob :=
  jobs.filter (fun j => (jobs.filter (fun j2 => keyGt j2 j)).length < maxJobs)

/-- The retention step at the end of `processFeed`: run `stmtDeleteOld` when
the stored count exceeds `MAX_JOBS`; nothing else is deleted — in
particular no statement touches `job_tags`. -/
def runTrim (maxJobs : Nat) (st : TrimState) : TrimState :=
  if st.jobs.length > maxJobs then
    { jobs := trimJobsTable maxJobs st.jobs, jobTags := st.jobTags }
  else st

/-! ## Concrete instances used by counterexamples and witnesses -/

/-- Identity stand-in for the external html-to-text converter (theorems that
depend on the converter quantify over it; concrete evaluations pick this). -/
def idConvert : String → String := fun s => s

/-- A `JSON.parse` outcome that always fails (models a non-JSON payload). -/
def noJson : String → Option (List String) := fun _ => none

/-- A concrete rewriter configuration with AI available. -/
def exCfg : RewriteCfg :=
  { convertSel := idConvert, convertWrap := idConvert, jsonParse := noJson,
    hasOpenAI := true, targetProfession := "motorista" }

/-- The crafted HTML fragment whose complete inner `<script></script>`
elements are removed by the single sanitizer pass, splicing the surrounding
fragments into a fresh `<script>` element. -/
def xssPayload : String := "<scr<script></script>ipt>alert(1)</scr<script></script>ipt>"

/-- An AI model response obeying the three-marker layout whose HTML section
carries `xssPayload`. -/
def xssResponse : String :=
  "===DESCRIPTION===\nDescricao breve da vaga.\n===HTML===\n" ++ xssPayload ++
    "\n===TAGS===\nnada"

/-- A concrete `unixtime` outcome (two distinct publication instants). -/
def exDateParse : String → Int :=
  fun s => if s = "2024-01-01" then 1704067200 else 1706745600

/-- A concrete enrichment outcome (content is irrelevant to storage keys). -/
def exEnrich : Nat → EnrichOut := fun _ => { short := "", html := "", tags := [] }

/-- Two feed items with identical title and company but distinct guids and
publication dates. -/
def exItem1 : FeedItem :=
  { title := "Motorista", description := "Vaga de motorista", company := "ACME",
    link := "", guid := "g1", pubDate := "2024-01-01" }

def exItem2 : FeedItem :=
  { title := "Motorista", description := "Outra vaga de motorista", company := "ACME",
    link := "", guid := "g2", pubDate := "2024-02-01" }

/-- A stored state with two jobs, both tagged with tag 5, over a retention
limit of 1. -/
def exTrimState : TrimState :=
  { jobs := [{ id := 1, published_at := 10 }, { id := 2, published_at := 20 }],
    jobTags := [(1, 5), (2, 5)] }

/-- The `RawJob` that the parse phase assembles for `item` when it is the
`ordinal`-th processed element (1-based). -/
def rawOf (dateParse : String → Int) (source : String) (item : FeedItem)
    (ordinal : Nat) : RawJob :=
  { rawTitle := item.title, rawCompany := item.company,
    rawDescription := item.description, guid := computeGuid item ordinal,
    source := source, url := item.link, published_at := dateParse item.pubDate }

/-- Two distinct matched items sharing one publication instant, used at the
retention boundary: with `MAX_JOBS = 1` the trim breaks the tie on the id
order and a second identical run rotates the surviving row. -/
def cItem1 : FeedItem :=
  { title := "Motorista A", description := "Vaga", company := "ACME",
    link := "", guid := "c1", pubDate := "2024-05-05" }

def cItem2 : FeedItem :=
  { title := "Motorista B", description := "Vaga", company := "ACME",
    link := "", guid := "c2", pubDate := "2024-05-05" }

/-- Another identical-title/company pair, used to witness the amended slug
claim. -/
def wItem1 : FeedItem :=
  { title := "Motorista de Carreta", description := "Vaga urgente", company := "Beta Ltda",
    link := "", guid := "w1", pubDate := "2024-01-01" }

def wItem2 : FeedItem :=
  { title := "Motorista de Carreta", description := "Vaga urgente 2", company := "Beta Ltda",
    link := "", guid := "w2", pubDate := "2024-03-01" }

/-- Three matched items whose AI calls would all succeed. -/
def exWork : List FeedWork :=
  [ { title := "Motorista A", company := "ACME", html := "", aiOutcome := Except.ok "x" },
    { title := "Motorista B", company := "ACME", html := "", aiOutcome := Except.ok "x" },
    { title := "Motorista C", company := "ACME", html := "", aiOutcome := Except.ok "x" } ]

/-! # Theorems

First the string-level infrastructure, then one theorem (plus witness or
counterexample where required) per claim. -/

theorem toNat_ofNatAux (n : Nat) (h : n.isValidChar) : (Char.ofNatAux n h).toNat = n := by
  simp [Char.ofNatAux, Char.toNat, UInt32.toNat]

theorem lowerChar_idem (c : Char) : lowerChar (lowerChar c) = lowerChar c := by
  unfold lowerChar
  split
  · rename_i h
    have hv : (Char.ofNatAux (c.toNat + 32)
        (Or.inl (by omega : c.toNat + 32 < 55296))).toNat = c.toNat + 32 :=
      toNat_ofNatAux _ _
    split
    · rename_i h2
      rw [hv] at h2
      omega
    · rfl
  · rfl

theorem isJsSpace_lowerChar (c : Char) : isJsSpace (lowerChar c) = isJsSpace c := by
  unfold lowerChar
  split
  · rename_i h
    have hv : (Char.ofNatAux (c.toNat + 32)
        (Or.inl (by omega : c.toNat + 32 < 55296))).toNat = c.toNat + 32 :=
      toNat_ofNatAux _ _
    simp only [isJsSpace, hv, decide_eq_decide]
    omega
  · rfl

theorem map_lowerChar_idem (l : List Char) :
    (l.map lowerChar).map lowerChar = l.map lowerChar := by
  induction l with
  | nil => rfl
  | cons c rest ih => simp [lowerChar_idem, ih]

theorem jsToLower_jsToLower (s : String) : jsToLower (jsToLower s) = jsToLower s := by
  show (⟨(s.data.map lowerChar).map lowerChar⟩ : String) = ⟨s.data.map lowerChar⟩
  rw [map_lowerChar_idem]

theorem head?_dropWhile_not (p : Char → Bool) (l : List Char) (c : Char)
    (h : (l.dropWhile p).head? = some c) : p c = false := by
  induction l with
  | nil => simp at h
  | cons d rest ih =>
    rw [List.dropWhile_cons] at h
    by_cases hd : p d = true
    · simp [hd] at h
      exact ih h
    · simp [hd] at h
      subst h
      simpa using hd

theorem getLast?_dropWhile (p : Char → Bool) (l : List Char)
    (h : l.dropWhile p ≠ []) : (l.dropWhile p).getLast? = l.getLast? := by
  induction l with
  | nil => simp at h
  | cons d rest ih =>
    rw [List.dropWhile_cons] at h ⊢
    by_cases hd : p d = true
    · simp only [hd, if_true] at h ⊢
      have hr : rest ≠ [] := by
        intro he
        rw [he] at h
        simp at h
      cases rest with
      | nil => exact absurd rfl hr
      | cons e t => rw [ih h, List.getLast?_cons_cons]
    · simp [hd]

theorem dropWhile_eq_self_of_head (p : Char → Bool) (l : List Char)
    (h : ∀ c, l.head? = some c → p c = false) : l.dropWhile p = l := by
  cases l with
  | nil => rfl
  | cons c rest =>
    rw [List.dropWhile_cons]
    simp [h c rfl]

theorem jsTrimList_eq_self (l : List Char)
    (hh : ∀ c, l.head? = some c → isJsSpace c = false)
    (hl : ∀ c, l.getLast? = some c → isJsSpace c = false) : jsTrimList l = l := by
  unfold jsTrimList
  rw [dropWhile_eq_self_of_head _ _ hh]
  rw [dropWhile_eq_self_of_head _ _ (by
    intro c hc
    rw [List.head?_reverse] at hc
    exact hl c hc)]
  exact List.reverse_reverse l

theorem normTag_data (x : String) : (normTag x).data = (jsTrimList x.data).map lowerChar := rfl

theorem normTag_head_not_space (x : String) (c : Char)
    (h : (normTag x).data.head? = some c) : isJsSpace c = false := by
  rw [normTag_data, List.head?_map] at h
  cases hd : (jsTrimList x.data).head? with
  | none => rw [hd] at h; simp at h
  | some d =>
    rw [hd] at h
    simp at h
    subst h
    rw [isJsSpace_lowerChar]
    unfold jsTrimList at hd
    rw [List.head?_reverse] at hd
    have hne : (((x.data.dropWhile isJsSpace).reverse).dropWhile isJsSpace) ≠ [] := by
      intro he
      rw [he] at hd
      simp at hd
    rw [getLast?_dropWhile _ _ hne, List.getLast?_reverse] at hd
    exact head?_dropWhile_not _ _ _ hd

theorem normTag_last_not_space (x : String) (c : Char)
    (h : (normTag x).data.getLast? = some c) : isJsSpace c = false := by
  rw [normTag_data, List.getLast?_map] at h
  cases hd : (jsTrimList x.data).getLast? with
  | none => rw [hd] at h; simp at h
  | some d =>
    rw [hd] at h
    simp at h
    subst h
    rw [isJsSpace_lowerChar]
    unfold jsTrimList at hd
    rw [List.getLast?_reverse] at hd
    exact head?_dropWhile_not _ _ _ hd

theorem jsTrim_normTag (x : String) : jsTrim (normTag x) = normTag x := by
  have := jsTrimList_eq_self (normTag x).data (normTag_head_not_space x) (normTag_last_not_space x)
  unfold jsTrim
  rw [this]

theorem jsToLower_normTag (x : String) : jsToLower (normTag x) = normTag x := by
  unfold normTag
  exact jsToLower_jsToLower (jsTrim x)

theorem uniqNormAux_mem : ∀ (xs seen : List String) (t : String),
    t ∈ uniqNormAux xs seen → (∃ x, t = normTag x) ∧ t ≠ "" ∧ t ∉ seen := by
  intro xs
  induction xs with
  | nil => intro seen t h; simp [uniqNormAux] at h
  | cons x rest ih =>
    intro seen t h
    rw [uniqNormAux] at h
    by_cases hc : normTag x = "" ∨ normTag x ∈ seen
    · rw [if_pos hc] at h
      exact ih seen t h
    · rw [if_neg hc] at h
      push_neg at hc
      rcases List.mem_cons.mp h with he | hm
      · exact ⟨⟨x, he⟩, he ▸ hc.1, he ▸ hc.2⟩
      · obtain ⟨hx, hne, hns⟩ := ih (normTag x :: seen) t hm
        exact ⟨hx, hne, fun hs => hns (List.mem_cons_of_mem _ hs)⟩

theorem uniqNormAux_nodup : ∀ (xs seen : List String), (uniqNormAux xs seen).Nodup := by
  intro xs
  induction xs with
  | nil => intro seen; simp [uniqNormAux]
  | cons x rest ih =>
    intro seen
    rw [uniqNormAux]
    by_cases hc : normTag x = "" ∨ normTag x ∈ seen
    · rw [if_pos hc]; exact ih seen
    · rw [if_neg hc]
      refine List.nodup_cons.mpr ⟨fun hmem => ?_, ih _⟩
      obtain ⟨_, _, hns⟩ := uniqNormAux_mem rest (normTag x :: seen) _ hmem
      exact hns (List.mem_cons_self _ _)

/-- Everything `uniqNormTags` can return satisfies the tag-list contract. -/
theorem tagListOk_uniqNormTags (l : List String) : tagListOk (uniqNormTags l) := by
  have hsub : (uniqNormTags l).Sublist (uniqNormAux l []) := List.take_sublist _ _
  refine ⟨List.length_take_le _ _, ?_, ?_⟩
  · intro t ht
    have hm : t ∈ uniqNormAux l [] := hsub.mem ht
    obtain ⟨⟨x, hx⟩, hne, _⟩ := uniqNormAux_mem l [] t hm
    exact ⟨hne, hx ▸ jsTrim_normTag x, hx ▸ jsToLower_normTag x⟩
  · have hnd : (uniqNormAux l []).Nodup := uniqNormAux_nodup l []
    have hpw : (uniqNormAux l []).Pairwise (fun a b => jsToLower a ≠ jsToLower b) := by
      refine hnd.imp_of_mem ?_
      intro a b ha hb hne
      obtain ⟨⟨xa, hxa⟩, _, _⟩ := uniqNormAux_mem l [] a ha
      obtain ⟨⟨xb, hxb⟩, _, _⟩ := uniqNormAux_mem l [] b hb
      rw [hxa, hxb, jsToLower_normTag, jsToLower_normTag]
      exact hxa ▸ hxb ▸ hne
    exact hpw.sublist hsub

/-- C2 helper: the tags field of every `rewriteJobRich` result is a
`uniqNormTags` image. -/
theorem rewriteJobRich_tags_shape (cfg : RewriteCfg) (title company html : String)
    (useAI : Bool) (ai : Except Unit String) :
    ∃ l, (rewriteJobRich cfg title company html useAI ai).tags = uniqNormTags l := by
  unfold rewriteJobRich
  by_cases h : (!cfg.hasOpenAI || !useAI) = true
  · rw [if_pos h]
    exact ⟨_, rfl⟩
  · rw [if_neg h]
    cases ai with
    | error e => exact ⟨_, rfl⟩
    | ok out => exact ⟨_, rfl⟩

/-- C2 — Tag bound: for every input, the tag list returned by `extractTags`,
and by `rewriteJobRich` on either the AI or the fallback path, has length at
most 8, contains no empty string, every entry is trimmed and lowercase, and
no two entries are equal case-insensitively. -/
theorem tag_bound (convert : String → String) (prof title company html : String)
    (cfg : RewriteCfg) (title2 company2 html2 : String) (useAI : Bool)
    (ai : Except Unit String) :
    tagListOk (extractTags convert prof title company html) ∧
      tagListOk (rewriteJobRich cfg title2 company2 html2 useAI ai).tags := by
  constructor
  · exact tagListOk_uniqNormTags _
  · obtain ⟨l, hl⟩ := rewriteJobRich_tags_shape cfg title2 company2 html2 useAI ai
    rw [hl]
    exact tagListOk_uniqNormTags l

theorem fallbackResult_usedAI (cfg : RewriteCfg) (title company html : String) :
    (fallbackResult cfg title company html).usedAI = false := rfl

/-- C5 — AI failure recovery: when the AI call errors, `rewriteJobRich`
returns exactly the result of the AI-disabled call on the same input
(whatever the AI outcome there), with `usedAI = false`; the model is a total
function, so no exception escapes. -/
theorem ai_failure_fallback (cfg : RewriteCfg) (title company html : String)
    (e : Unit) (ai : Except Unit String) :
    rewriteJobRich cfg title company html true (Except.error e) =
      rewriteJobRich cfg title company html false ai ∧
      (rewriteJobRich cfg title company html true (Except.error e)).usedAI = false := by
  cases hcfg : cfg.hasOpenAI <;>
    simp [rewriteJobRich, hcfg, fallbackResult_usedAI]

/-- C8 — Fallback determinism: with `useAI = false` the result does not
depend on the AI outcome at all (two calls on the same input are equal), and
`usedAI = false`. -/
theorem fallback_deterministic (cfg : RewriteCfg) (title company html : String)
    (ai1 ai2 : Except Unit String) :
    rewriteJobRich cfg title company html false ai1 =
      rewriteJobRich cfg title company html false ai2 ∧
      (rewriteJobRich cfg title company html false ai1).usedAI = false := by
  simp [rewriteJobRich, fallbackResult_usedAI]

theorem rewriteJobRich_usedAI_requested (cfg : RewriteCfg) (title company html : String)
    (useAI : Bool) (ai : Except Unit String)
    (h : (rewriteJobRich cfg title company html useAI ai).usedAI = true) : useAI = true := by
  cases useAI with
  | false => simp [rewriteJobRich, fallbackResult_usedAI] at h
  | true => rfl

theorem aiLoop_cons_snd (cfg : RewriteCfg) (L : Nat) (w : FeedWork)
    (rest : List FeedWork) (n : Nat) :
    (aiLoop cfg L (w :: rest) n).2 =
      (((L == 0) || decide (n < L)),
        (rewriteJobRich cfg w.title w.company w.html
          ((L == 0) || decide (n < L)) w.aiOutcome).usedAI) ::
      (aiLoop cfg L rest
        (if (rewriteJobRich cfg w.title w.company w.html
          ((L == 0) || decide (n < L)) w.aiOutcome).usedAI then n + 1 else n)).2 := rfl

theorem aiLoop_counter_le (cfg : RewriteCfg) (L : Nat) (hL : 0 < L) :
    ∀ (items : List FeedWork) (n : Nat), n ≤ L →
      ∀ k, n + (((aiLoop cfg L items n).2.take k).filter (fun p => p.2)).length ≤ L := by
  intro items
  induction items with
  | nil => intro n hn k; simp [aiLoop]; exact hn
  | cons w rest ih =>
    intro n hn k
    rw [aiLoop_cons_snd]
    cases hu : (rewriteJobRich cfg w.title w.company w.html
        ((L == 0) || decide (n < L)) w.aiOutcome).usedAI with
    | false =>
      cases k with
      | zero => simpa using hn
      | succ k2 =>
        have hrec := ih n hn k2
        simp only [List.take_succ_cons, List.filter_cons]
        simpa using hrec
    | true =>
      have hreq := rewriteJobRich_usedAI_requested _ _ _ _ _ _ hu
      have hlt : n < L := by
        have hne : (L == 0) = false := by
          have : L ≠ 0 := by omega
          simpa using this
        rw [hne, Bool.false_or] at hreq
        exact of_decide_eq_true hreq
      cases k with
      | zero => simpa using hn
      | succ k2 =>
        have hrec := ih (n + 1) hlt k2
        simp only [List.take_succ_cons, List.filter_cons]
        simp only [List.length_cons] at hrec ⊢
        simp at hrec ⊢
        omega

theorem aiLoop_all_requested (cfg : RewriteCfg) :
    ∀ (items : List FeedWork) (n : Nat),
      ((aiLoop cfg 0 items n).2.all (fun p => p.1)) = true := by
  intro items
  induction items with
  | nil => intro n; simp [aiLoop]
  | cons w rest ih =>
    intro n
    rw [aiLoop]
    simp only [List.all_cons, Bool.and_eq_true]
    exact ⟨rfl, ih _⟩

/-- C9 — AI budget bound: within one `processFeed` run with
`AI_PROCESS_LIMIT = L > 0`, at most `L` processed items come back with
`usedAI = true` (the running counter stays ≤ L throughout, i.e. on every
prefix), while with `L = 0` the AI path is requested for every matched
item. -/
theorem ai_budget_bound (cfg : RewriteCfg) (L : Nat) (items : List FeedWork) :
    (0 < L → ∀ k,
      (((aiLoop cfg L items 0).2.take k).filter (fun p => p.2)).length ≤ L) ∧
      (L = 0 → ((aiLoop cfg L items 0).2.all (fun p => p.1)) = true) := by
  constructor
  · intro hL k
    have := aiLoop_counter_le cfg L hL items 0 (Nat.zero_le _) k
    simpa using this
  · intro hL
    subst hL
    exact aiLoop_all_requested cfg items 0

/-- C9 witness: with limit 1 over three AI-successful items at most one is
AI-enhanced; with limit 0 the AI path is requested for all three. -/
theorem ai_budget_bound_witness :
    ((((aiLoop exCfg 1 exWork 0).2.take 3).filter (fun p => p.2)).length ≤ 1) ∧
      ((aiLoop exCfg 0 exWork 0).2.all (fun p => p.1) = true) :=
  ⟨(ai_budget_bound exCfg 1 exWork).1 (by decide) 3,
    (ai_budget_bound exCfg 0 exWork).2 rfl⟩

theorem uniqNormAux_append_mem (p : String) (hp : normTag p ≠ "") :
    ∀ (xs seen : List String),
      normTag p ∈ seen ∨ normTag p ∈ uniqNormAux (xs ++ [p]) seen := by
  intro xs
  induction xs with
  | nil =>
    intro seen
    rw [List.nil_append, uniqNormAux]
    by_cases hc : normTag p = "" ∨ normTag p ∈ seen
    · rcases hc with hc | hc
      · exact absurd hc hp
      · exact Or.inl hc
    · rw [if_neg hc]
      exact Or.inr (List.mem_cons_self _ _)
  | cons x rest ih =>
    intro seen
    rw [List.cons_append, uniqNormAux]
    by_cases hc : normTag x = "" ∨ normTag x ∈ seen
    · rw [if_pos hc]
      exact ih seen
    · rw [if_neg hc]
      rcases ih (normTag x :: seen) with hs | hm
      · rcases List.mem_cons.mp hs with he | hs2
        · exact Or.inr (he ▸ List.mem_cons_self _ _)
        · exact Or.inl hs2
      · exact Or.inr (List.mem_cons_of_mem _ hm)

theorem uniqNormAux_append_split (p : String) :
    ∀ (xs seen : List String), ∃ extra,
      uniqNormAux (xs ++ [p]) seen = uniqNormAux xs seen ++ extra ∧
        extra.length ≤ 1 := by
  intro xs
  induction xs with
  | nil =>
    intro seen
    rw [List.nil_append, uniqNormAux, uniqNormAux]
    by_cases hc : normTag p = "" ∨ normTag p ∈ seen
    · exact ⟨[], by rw [if_pos hc, uniqNormAux]; simp⟩
    · refine ⟨[normTag p], ?_⟩
      rw [if_neg hc, uniqNormAux]
      simp
  | cons x rest ih =>
    intro seen
    rw [List.cons_append, uniqNormAux, uniqNormAux]
    by_cases hc : normTag x = "" ∨ normTag x ∈ seen
    · rw [if_pos hc, if_pos hc]
      exact ih seen
    · rw [if_neg hc, if_neg hc]
      obtain ⟨extra, heq, hlen⟩ := ih (normTag x :: seen)
      exact ⟨extra, by rw [heq, List.cons_append], hlen⟩

/-- C10 counterexample: a whitespace-only configured profession is a
non-empty string, yet `extractTags` applied to empty title/company/html
returns the empty list (the appended profession is trimmed away by
`uniqNormTags`), so the list neither is non-empty nor contains the
profession. -/
theorem profession_tag_counterexample :
    (" " : String) ≠ "" ∧ extractTags idConvert " " "" "" "" = [] := by
  constructor
  · decide
  · decide

/-- C10 (amended) — profession tag: `extractTags` appends the lowercased
configured profession before normalisation; whenever the profession label is
non-empty after trimming and lowercasing, the returned list is non-empty,
and it contains the trimmed lowercased profession provided fewer than 8
distinct normalised tags were collected before it (the cap can otherwise
push it out). -/
theorem profession_tag (convert : String → String) (prof title company html : String)
    (hp : normTag (jsToLower prof) ≠ "") :
    extractTags convert prof title company html ≠ [] ∧
      ((uniqNormAux (extractFound convert prof title company html) []).length < 8 →
        normTag (jsToLower prof) ∈ extractTags convert prof title company html) := by
  have hmem : normTag (jsToLower prof) ∈
      uniqNormAux (extractFound convert prof title company html ++ [jsToLower prof]) [] := by
    rcases uniqNormAux_append_mem (jsToLower prof) hp
        (extractFound convert prof title company html) [] with hs | hm
    · exact absurd hs (List.not_mem_nil _)
    · exact hm
  constructor
  · intro hnil
    unfold extractTags uniqNormTags at hnil
    rcases List.take_eq_nil_iff.mp hnil with h8 | haux
    · exact absurd h8 (by omega)
    · rw [haux] at hmem
      exact List.not_mem_nil _ hmem
  · intro hlen
    obtain ⟨extra, heq, hextra⟩ :=
      uniqNormAux_append_split (jsToLower prof)
        (extractFound convert prof title company html) []
    unfold extractTags uniqNormTags
    rw [heq]
    rw [heq] at hmem
    have htot : ((uniqNormAux (extractFound convert prof title company html) []) ++ extra).length ≤ 8 := by
      rw [List.length_append]
      omega
    rw [List.take_of_length_le htot]
    exact hmem

/-- C10 witness: with the default profession `motorista` and empty inputs,
the tag list is non-empty and contains `motorista`. -/
theorem profession_tag_witness :
    extractTags idConvert "motorista" "" "" "" ≠ [] ∧
      normTag (jsToLower "motorista") ∈ extractTags idConvert "motorista" "" "" "" :=
  ⟨(profession_tag idConvert "motorista" "" "" "" (by decide)).1,
    (profession_tag idConvert "motorista" "" "" "" (by decide)).2 (by decide)⟩

theorem getCountryFromHost_some (host : String) :
    getCountryFromHost (some host) =
      match tldCountryMap.find?
        (fun p => p.1 = ((jsToLower host).splitOn ".").getLastD "") with
      | some p => p.2
      | none => "US" := rfl

theorem getCountryFromHost_ok (hostOutcome : Option String) :
    getCountryFromHost hostOutcome ≠ "" ∧
      (getCountryFromHost hostOutcome ∈ tldCountryMap.map Prod.snd ∨
        getCountryFromHost hostOutcome = "US") := by
  cases hostOutcome with
  | none => exact ⟨by decide, Or.inr rfl⟩
  | some host =>
    rw [getCountryFromHost_some]
    cases hf : tldCountryMap.find?
        (fun p => p.1 = ((jsToLower host).splitOn ".").getLastD "") with
    | none => exact ⟨by decide, Or.inr rfl⟩
    | some pr =>
      have hm := List.mem_of_find?_eq_some hf
      have hvals : ∀ q ∈ tldCountryMap, q.2 ≠ ("" : String) := by decide
      exact ⟨hvals pr hm, Or.inl (List.mem_map.mpr ⟨pr, hm, rfl⟩)⟩

theorem inferJobLocations_country (convert : String → String) (html title : String)
    (hostOutcome : Option String) :
    ∀ p ∈ inferJobLocations convert html title hostOutcome,
      p.address.addressCountry = getCountryFromHost hostOutcome := by
  intro p hp
  simp only [inferJobLocations, List.mem_singleton] at hp
  subst hp
  cases citiesBR.find?
      (fun c => jsIncludes (jsToLower (convert html ++ " " ++ title)) c) <;> rfl

/-- C3 — Location non-null: for every html, title, and site-URL parse
outcome (including a failed parse), `inferJobLocations` returns a
one-element list of Places whose address carries a non-empty
`addressCountry` drawn from the fixed TLD table or equal to the fallback
country `US`. -/
theorem location_nonnull (convert : String → String) (html title : String)
    (hostOutcome : Option String) :
    (inferJobLocations convert html title hostOutcome).length = 1 ∧
      ∀ p ∈ inferJobLocations convert html title hostOutcome,
        p.address.addressCountry ≠ "" ∧
          (p.address.addressCountry ∈ tldCountryMap.map Prod.snd ∨
            p.address.addressCountry = "US") := by
  refine ⟨rfl, ?_⟩
  intro p hp
  rw [inferJobLocations_country convert html title hostOutcome p hp]
  exact getCountryFromHost_ok hostOutcome

/-- C7 counterexample: trimming `exTrimState` to one job evicts job 1, yet
the `job_tags` row `(1, 5)` survives with no corresponding jobs row. -/
theorem jobtag_lifecycle_counterexample :
    (1, 5) ∈ (runTrim 1 exTrimState).jobTags ∧
      ((runTrim 1 exTrimState).jobs.all (fun j => decide (j.id ≠ 1))) = true := by
  constructor
  · decide
  · decide

/-- C7 (amended) — JobTag lifecycle: the RetentionTrimmer touches only the
`jobs` table; `job_tags` rows are never deleted, so rows referencing evicted
jobs remain (orphaned), and when the stored count exceeds the limit the jobs
table is cut down to the retention winners. -/
theorem jobtag_lifecycle (maxJobs : Nat) (st : TrimState) :
    (runTrim maxJobs st).jobTags = st.jobTags ∧
      (st.jobs.length > maxJobs →
        (runTrim maxJobs st).jobs = trimJobsTable maxJobs st.jobs) := by
  constructor
  · unfold runTrim
    split <;> rfl
  · intro hgt
    unfold runTrim
    rw [if_pos hgt]

/-- C7 witness for the amended statement at the concrete over-limit state. -/
theorem jobtag_lifecycle_witness :
    (runTrim 1 exTrimState).jobTags = exTrimState.jobTags ∧
      (runTrim 1 exTrimState).jobs = trimJobsTable 1 exTrimState.jobs :=
  ⟨(jobtag_lifecycle 1 exTrimState).1, (jobtag_lifecycle 1 exTrimState).2 (by decide)⟩

/-- C6 counterexample: two feed items with identical title `Motorista` and
company `ACME` but distinct guids and distinct parsed publication times
yield a single stored row (the second insert is ignored on the slug), so the
two jobs neither receive distinct slugs nor are both stored. -/
theorem slug_uniqueness_counterexample :
    (runFeed exDateParse "feed.example.com" ["motorista"] exEnrich []
        [exItem1, exItem2]).map (fun r => r.guid) = ["g1"] ∧
      exItem1.guid ≠ exItem2.guid ∧
      exDateParse exItem1.pubDate ≠ exDateParse exItem2.pubDate := by
  refine ⟨?_, by decide, by decide⟩
  decide

theorem rawOf_guid (dateParse : String → Int) (source : String) (item : FeedItem)
    (ordinal : Nat) : (rawOf dateParse source item ordinal).guid = computeGuid item ordinal := by
  unfold rawOf
  rfl

theorem mkRow_guid (rj : RawJob) (e : EnrichOut) : (mkRow rj e).guid = rj.guid := by
  unfold mkRow
  rfl

theorem mkRow_slug (rj : RawJob) (e : EnrichOut) : (mkRow rj e).slug = slugForJob rj := by
  unfold mkRow
  rfl

theorem slugForJob_rawOf (dateParse : String → Int) (source : String) (item : FeedItem)
    (ordinal : Nat) : slugForJob (rawOf dateParse source item ordinal) =
      jsOr (mkSlug (item.title ++ "-" ++ item.company))
        (jsOr (mkSlug item.title) (mkSlug (computeGuid item ordinal))) := by
  unfold slugForJob rawOf
  rfl

/-- C6 (amended) — Slug collision: two feed items with identical title and
company (whose combined slug is non-empty) and fresh guids receive the SAME
slug, so the second `INSERT OR IGNORE` is a no-op and only the first job is
stored. -/
theorem slug_collision (dateParse : String → Int) (source : String)
    (keywords : List String) (enrichAt : Nat → EnrichOut) (db : List JobRow)
    (i1 i2 : FeedItem)
    (ht : i1.title = i2.title) (hco : i1.company = i2.company)
    (hm1 : matchesProfession keywords i1.title i1.company i1.description = true)
    (hm2 : matchesProfession keywords i2.title i2.company i2.description = true)
    (hs : mkSlug (i1.title ++ "-" ++ i1.company) ≠ "")
    (hg1 : computeGuid i1 1 ∉ db.map (fun r => r.guid))
    (hg2 : computeGuid i2 2 ∉ db.map (fun r => r.guid))
    (hsl : mkSlug (i1.title ++ "-" ++ i1.company) ∉ db.map (fun r => r.slug)) :
    slugForJob (rawOf dateParse source i1 1) = slugForJob (rawOf dateParse source i2 2) ∧
      runFeed dateParse source keywords enrichAt db [i1, i2] =
        db ++ [mkRow (rawOf dateParse source i1 1) (enrichAt 0)] := by
  have hslug1 : slugForJob (rawOf dateParse source i1 1) =
      mkSlug (i1.title ++ "-" ++ i1.company) := by
    rw [slugForJob_rawOf]
    unfold jsOr
    rw [if_neg hs]
  have hslug2 : slugForJob (rawOf dateParse source i2 2) =
      mkSlug (i1.title ++ "-" ++ i1.company) := by
    rw [slugForJob_rawOf]
    unfold jsOr
    rw [← ht, ← hco, if_neg hs]
  refine ⟨hslug1.trans hslug2.symm, ?_⟩
  have hcollect : collectAux dateParse source keywords (db.map (fun r => r.guid)) 1 [i1, i2] =
      [rawOf dateParse source i1 1, rawOf dateParse source i2 2] := by
    show (if computeGuid i1 1 ∈ db.map (fun r => r.guid) then []
          else if matchesProfession keywords i1.title i1.company i1.description then
            [rawOf dateParse source i1 1] else []) ++
        ((if computeGuid i2 2 ∈ db.map (fun r => r.guid) then []
          else if matchesProfession keywords i2.title i2.company i2.description then
            [rawOf dateParse source i2 2] else []) ++ []) =
        [rawOf dateParse source i1 1, rawOf dateParse source i2 2]
    rw [if_neg hg1, if_neg hg2, hm1, hm2]
    simp
  have hga : (db.any (fun r => r.guid = computeGuid i1 1)) = false := by
    rw [List.any_eq_false]
    intro r hr hp
    exact hg1 (List.mem_map.mpr ⟨r, hr, of_decide_eq_true hp⟩)
  have hsa : (db.any (fun r => r.slug = mkSlug (i1.title ++ "-" ++ i1.company))) = false := by
    rw [List.any_eq_false]
    intro r hr hp
    exact hsl (List.mem_map.mpr ⟨r, hr, of_decide_eq_true hp⟩)
  have hrow1 : insertOrIgnore db (mkRow (rawOf dateParse source i1 1) (enrichAt 0)) =
      db ++ [mkRow (rawOf dateParse source i1 1) (enrichAt 0)] := by
    unfold insertOrIgnore
    simp only [mkRow_guid, mkRow_slug, rawOf_guid, hslug1, hga, hsa]
    rfl
  have hsa2 : ((db ++ [mkRow (rawOf dateParse source i1 1) (enrichAt 0)]).any
      (fun r => r.slug = mkSlug (i1.title ++ "-" ++ i1.company))) = true := by
    rw [List.any_eq_true]
    refine ⟨mkRow (rawOf dateParse source i1 1) (enrichAt 0),
      List.mem_append_right _ (List.mem_singleton.mpr rfl), ?_⟩
    rw [mkRow_slug, hslug1]
    simp
  have hrow2 : insertOrIgnore (db ++ [mkRow (rawOf dateParse source i1 1) (enrichAt 0)])
      (mkRow (rawOf dateParse source i2 2) (enrichAt 1)) =
      db ++ [mkRow (rawOf dateParse source i1 1) (enrichAt 0)] := by
    unfold insertOrIgnore
    simp only [mkRow_slug, hslug2, hsa2, Bool.or_true]
    rfl
  have hsteps : runFeed dateParse source keywords enrichAt db [i1, i2] =
      insertOrIgnore (insertOrIgnore db (mkRow (rawOf dateParse source i1 1) (enrichAt 0)))
        (mkRow (rawOf dateParse source i2 2) (enrichAt 1)) := by
    unfold runFeed
    rw [hcollect]
    rfl
  rw [hsteps, hrow1, hrow2]

/-- C6 witness for the amended statement at a concrete identical-title pair. -/
theorem slug_collision_witness :
    slugForJob (rawOf exDateParse "feed.example.com" wItem1 1) =
      slugForJob (rawOf exDateParse "feed.example.com" wItem2 2) ∧
      runFeed exDateParse "feed.example.com" ["motorista"] exEnrich [] [wItem1, wItem2] =
        [] ++ [mkRow (rawOf exDateParse "feed.example.com" wItem1 1) (exEnrich 0)] :=
  slug_collision exDateParse "feed.example.com" ["motorista"] exEnrich []
    wItem1 wItem2 rfl rfl (by decide) (by decide) (by decide) (by decide) (by decide)
    (by decide)

/-! ## C1 — idempotent ingestion -/

theorem insertJobsAux_preserves (e : Nat → EnrichOut) :
    ∀ (bs : List RawJob) (i : Nat) (db : List JobRow) (r : JobRow),
      r ∈ db → r ∈ insertJobsAux e i db bs := by
  intro bs
  induction bs with
  | nil => intro i db r hr; exact hr
  | cons b rest ih =>
    intro i db r hr
    rw [insertJobsAux]
    refine ih (i + 1) _ r ?_
    unfold insertOrIgnore
    split
    · exact hr
    · exact List.mem_append_left _ hr

theorem insertJobsAux_guid_mono (e : Nat → EnrichOut) (bs : List RawJob) (i : Nat)
    (db : List JobRow) (g : String) (hg : g ∈ db.map (fun r => r.guid)) :
    g ∈ (insertJobsAux e i db bs).map (fun r => r.guid) := by
  obtain ⟨r, hr, hrg⟩ := List.mem_map.mp hg
  exact List.mem_map.mpr ⟨r, insertJobsAux_preserves e bs i db r hr, hrg⟩

theorem insertJobsAux_keys (e : Nat → EnrichOut) :
    ∀ (bs : List RawJob) (i : Nat) (db : List JobRow) (rj : RawJob), rj ∈ bs →
      rj.guid ∈ (insertJobsAux e i db bs).map (fun r => r.guid) ∨
        slugForJob rj ∈ (insertJobsAux e i db bs).map (fun r => r.slug) := by
  intro bs
  induction bs with
  | nil => intro i db rj hrj; exact absurd hrj (List.not_mem_nil _)
  | cons b rest ih =>
    intro i db rj hrj
    rw [insertJobsAux]
    rcases List.mem_cons.mp hrj with rfl | hmem
    · by_cases hcond : (db.any (fun r => r.guid = (mkRow rj (e i)).guid) ||
          db.any (fun r => r.slug = (mkRow rj (e i)).slug)) = true
      · -- ignored: the colliding key is already stored and rows are preserved
        rcases Bool.or_eq_true_iff.mp hcond with hany | hany
        · obtain ⟨r, hr, hp⟩ := List.any_eq_true.mp hany
          left
          refine List.mem_map.mpr ⟨r, ?_, ?_⟩
          · exact insertJobsAux_preserves e rest (i + 1) _ r (by
              unfold insertOrIgnore
              rw [if_pos hcond]
              exact hr)
          · rw [of_decide_eq_true hp, mkRow_guid]
        · obtain ⟨r, hr, hp⟩ := List.any_eq_true.mp hany
          right
          refine List.mem_map.mpr ⟨r, ?_, ?_⟩
          · exact insertJobsAux_preserves e rest (i + 1) _ r (by
              unfold insertOrIgnore
              rw [if_pos hcond]
              exact hr)
          · rw [of_decide_eq_true hp, mkRow_slug]
      · -- inserted: the new row itself carries the keys
        left
        refine List.mem_map.mpr ⟨mkRow rj (e i), ?_, mkRow_guid rj (e i)⟩
        refine insertJobsAux_preserves e rest (i + 1) _ _ ?_
        unfold insertOrIgnore
        rw [if_neg hcond]
        exact List.mem_append_right _ (List.mem_singleton.mpr rfl)
    · exact ih (i + 1) _ rj hmem

theorem insertJobsAux_noop (e : Nat → EnrichOut) :
    ∀ (bs : List RawJob) (i : Nat) (db : List JobRow),
      (∀ rj ∈ bs, rj.guid ∈ db.map (fun r => r.guid) ∨
        slugForJob rj ∈ db.map (fun r => r.slug)) →
      insertJobsAux e i db bs = db := by
  intro bs
  induction bs with
  | nil => intro i db _; rfl
  | cons b rest ih =>
    intro i db hall
    rw [insertJobsAux]
    have hb := hall b (List.mem_cons_self _ _)
    have hignore : insertOrIgnore db (mkRow b (e i)) = db := by
      unfold insertOrIgnore
      rw [if_pos ?_]
      rcases hb with hkey | hkey
      · obtain ⟨r, hr, hrk⟩ := List.mem_map.mp hkey
        rw [Bool.or_eq_true_iff]
        left
        rw [List.any_eq_true]
        exact ⟨r, hr, decide_eq_true (by rw [mkRow_guid]; exact hrk)⟩
      · obtain ⟨r, hr, hrk⟩ := List.mem_map.mp hkey
        rw [Bool.or_eq_true_iff]
        right
        rw [List.any_eq_true]
        exact ⟨r, hr, decide_eq_true (by rw [mkRow_slug]; exact hrk)⟩
    rw [hignore]
    exact ih (i + 1) db (fun rj hrj => hall rj (List.mem_cons_of_mem _ hrj))

theorem collectAux_anti (dateParse : String → Int) (source : String)
    (keywords : List String) (gset gset' : List String)
    (hsub : ∀ g, g ∈ gset → g ∈ gset') :
    ∀ (feed : List FeedItem) (n : Nat) (rj : RawJob),
      rj ∈ collectAux dateParse source keywords gset' n feed →
        rj ∈ collectAux dateParse source keywords gset n feed := by
  intro feed
  induction feed with
  | nil => intro n rj hrj; exact hrj
  | cons item rest ih =>
    intro n rj hrj
    rw [collectAux] at hrj ⊢
    rcases List.mem_append.mp hrj with hhd | htl
    · refine List.mem_append_left _ ?_
      by_cases hmemg : computeGuid item n ∈ gset'
      · rw [if_pos hmemg] at hhd
        exact absurd hhd (List.not_mem_nil _)
      · rw [if_neg hmemg] at hhd
        rw [if_neg (fun hmem2 => hmemg (hsub _ hmem2))]
        exact hhd
    · exact List.mem_append_right _ (ih (n + 1) rj htl)

/-- C1 counterexample: the full pipeline (insert phase followed by the
retention trim) is not idempotent.  With `MAX_JOBS = 1` and two matched
items `c1`, `c2` sharing one publication instant, the first run stores both
and trims to `[c2]` (evicting `c1` together with its guid); the second run
over the identical feed re-collects `c1` (its guid is gone), re-inserts it
with a higher id, and the trim now keeps `[c1]` — a different stored jobs
table. -/
theorem ingest_idempotent_counterexample :
    (runPipeline exDateParse "feed.example.com" ["motorista"] exEnrich 1 []
        [cItem1, cItem2]).map (fun r => r.guid) = ["c2"] ∧
      (runPipeline exDateParse "feed.example.com" ["motorista"] exEnrich 1
          (runPipeline exDateParse "feed.example.com" ["motorista"] exEnrich 1 []
            [cItem1, cItem2]) [cItem1, cItem2]).map (fun r => r.guid) = ["c1"] := by
  constructor
  · decide
  · decide

/-- C1 (amended) — Idempotent ingestion of the collect-and-insert stage:
running parse, filter, enrichment and insertion a second time over the
identical feed (with arbitrary, possibly different, enrichment outcomes)
leaves the stored jobs table unchanged — every item is either caught by the
guid pre-check or its insert-or-ignore is a no-op on the stored guid/slug
keys.  The full pipeline including the retention trim is idempotent only
when the first run's table stays within `MAX_JOBS`, so that the trim evicts
nothing; otherwise trimming deletes evicted guids and a second run can
re-ingest them. -/
theorem ingest_idempotent (dateParse : String → Int) (source : String)
    (keywords : List String) (e1 e2 : Nat → EnrichOut) (maxJobs : Nat)
    (db : List JobRow) (feed : List FeedItem) :
    runFeed dateParse source keywords e2
        (runFeed dateParse source keywords e1 db feed) feed =
      runFeed dateParse source keywords e1 db feed ∧
      ((runFeed dateParse source keywords e1 db feed).length ≤ maxJobs →
        runPipeline dateParse source keywords e2 maxJobs
            (runPipeline dateParse source keywords e1 maxJobs db feed) feed =
          runPipeline dateParse source keywords e1 maxJobs db feed) := by
  have hins : runFeed dateParse source keywords e2
      (runFeed dateParse source keywords e1 db feed) feed =
      runFeed dateParse source keywords e1 db feed := by
    unfold runFeed
    apply insertJobsAux_noop
    intro rj hrj
    have hrj1 : rj ∈ collectAux dateParse source keywords
        (db.map (fun r => r.guid)) 1 feed := by
      refine collectAux_anti dateParse source keywords _ _ ?_ feed 1 rj hrj
      intro g hg
      exact insertJobsAux_guid_mono e1 _ 0 db g hg
    exact insertJobsAux_keys e1 _ 0 db rj hrj1
  refine ⟨hins, ?_⟩
  intro hlen
  have h1 : trimStep maxJobs (runFeed dateParse source keywords e1 db feed) =
      runFeed dateParse source keywords e1 db feed := by
    unfold trimStep
    rw [if_neg (by omega)]
  unfold runPipeline
  rw [h1, hins, h1]

/-- C1 witness for the amended statement: within the retention limit
(`maxJobs = 2`, two stored rows) the full pipeline is idempotent on the
concrete two-item feed. -/
theorem ingest_idempotent_witness :
    runFeed exDateParse "feed.example.com" ["motorista"] exEnrich
        (runFeed exDateParse "feed.example.com" ["motorista"] exEnrich []
          [cItem1, cItem2]) [cItem1, cItem2] =
      runFeed exDateParse "feed.example.com" ["motorista"] exEnrich []
        [cItem1, cItem2] ∧
      runPipeline exDateParse "feed.example.com" ["motorista"] exEnrich 2
          (runPipeline exDateParse "feed.example.com" ["motorista"] exEnrich 2 []
            [cItem1, cItem2]) [cItem1, cItem2] =
        runPipeline exDateParse "feed.example.com" ["motorista"] exEnrich 2 []
          [cItem1, cItem2] :=
  ⟨(ingest_idempotent exDateParse "feed.example.com" ["motorista"] exEnrich exEnrich 2
      [] [cItem1, cItem2]).1,
    (ingest_idempotent exDateParse "feed.example.com" ["motorista"] exEnrich exEnrich 2
      [] [cItem1, cItem2]).2 (by decide)⟩

/-! ## C4 — sanitization -/

/-- C4 — the sanitizer is a single pass and can be bypassed: for the AI
response `xssResponse` (whose HTML section is `xssPayload`), the
`description_html` returned by `rewriteJobRich` is exactly
`<script>alert(1)</script>` — it contains a script element, contradicting
the claim that the output never contains one.  The single pass removes the
complete inner `<script></script>` elements and thereby splices the
surrounding fragments into a fresh script element that is never re-scanned. -/
theorem sanitize_bypass :
    (rewriteJobRich exCfg "" "" "" true (Except.ok xssResponse)).html =
      "<script>alert(1)</script>" ∧
      jsIncludes (rewriteJobRich exCfg "" "" "" true (Except.ok xssResponse)).html
        "<script>" = true := by
  constructor
  · decide
  · decide

end JobBoard
